import Mathlib

/-!
Verification of the TradingLab backend core against its specification.

This development shallowly embeds the parts of the source that the
specification's claims are about:

* the trading-calendar helper (`services/stock_daily_service.py`,
  `is_trading_day`),
* the daily-bar cache service (`StockDailyService.get_daily_by_code` and
  its helpers `_filter_date_range`, `_merge_consecutive_dates`),
* the daily-bar repository surface (`StockDailyRepository`,
  `BaseRepository`),
* the provider registry and router (`fetcher/manager.py`:
  `MethodRegistry`, `ServiceMethod.choose_implementation`,
  `ServiceMethod.call`, `DataSourceManager.is_healthy`,
  `DataSourceManager.stat`, `DataSourceManager.bind`).

Dates are modelled as natural numbers counting days since 1970-01-01
(which was a Thursday).  Python floats are modelled as rationals.
-/

namespace TradingLab

/-! ## Calendar (`is_trading_day`, stock_daily_service.py lines 108-116) -/

/-- Weekday of an epoch-day number, with Monday = 0 .. Sunday = 6.
Day 0 is 1970-01-01, a Thursday (weekday 3). -/
def weekday (d : Nat) : Nat := (d + 3) % 7

/-- Modelled from the spec: the China-market holiday table consulted by
`chinese_calendar.is_holiday`, which is a third-party library whose code is
not in the repository.  The table lists statutory-holiday epoch-day
numbers; the excerpt used by the concrete claims contains 2024-01-01
(New Year, epoch day 19723). -/
def holidayTable : List Nat := [19723]

/-- Modelled from the spec: `chinese_calendar.is_holiday(d)` membership in
the China-market holiday table. -/
def is_holiday (d : Nat) : Bool := holidayTable.contains d

/-- `is_trading_day` (stock_daily_service.py lines 108-116): reject
weekends (weekday ≥ 5), then reject holidays, otherwise a trading day. -/
def is_trading_day (d : Nat) : Bool :=
  if weekday d ≥ 5 then false
  else if is_holiday d then false
  else true

/-- Epoch-day constants used by concrete scenarios:
2024-01-01 Mon = 19723, 2024-01-02 Tue = 19724, 2024-01-03 Wed = 19725,
2024-01-04 Thu = 19726, 2024-01-05 Fri = 19727, 2024-01-06 Sat = 19728. -/
def jan1of2024 : Nat := 19723

theorem weekday_jan1of2024 : weekday jan1of2024 = 0 := by decide

/-- C9: `is_trading_day` is a pure total function (it is a Lean `def`,
hence deterministic and total); `is_trading_day d` holds exactly when the
weekday of `d` is Monday..Friday and `d` is not in the holiday table; it
is `false` on every Saturday and Sunday, `false` on the known holiday
2024-01-01, and `true` on the ordinary Wednesday 2024-01-03. -/
theorem is_trading_day_spec :
    (∀ d : Nat, is_trading_day d = true ↔ (weekday d < 5 ∧ is_holiday d = false)) ∧
    (∀ d : Nat, weekday d = 5 ∨ weekday d = 6 → is_trading_day d = false) ∧
    is_trading_day 19723 = false ∧
    is_trading_day 19725 = true := by
  refine ⟨fun d => ?_, fun d h => ?_, by decide, by decide⟩
  · unfold is_trading_day
    rcases h5 : (decide (weekday d ≥ 5)) with _ | _ <;>
      rcases hh : is_holiday d with _ | _ <;>
        simp_all
  · unfold is_trading_day
    rcases h with h | h <;> simp [h]

/-- Witness for `is_trading_day_spec`: 2024-01-06 (epoch day 19728) is a
Saturday and is classified as a non-trading day. -/
theorem is_trading_day_spec_witness :
    (weekday 19728 = 5 ∨ weekday 19728 = 6) ∧ is_trading_day 19728 = false :=
  ⟨Or.inl (by decide), is_trading_day_spec.2.1 19728 (Or.inl (by decide))⟩

/-! ## Daily bars and the cache service (stock_daily_service.py) -/

/-- One daily OHLCV bar, as stored in `stock_daily_data` rows /
`cached_df` rows (models/stock_daily_data.py).  The timestamp is the
trade date as an epoch-day number; prices are rationals. -/
structure Bar where
  symbol : String
  timestamp : Nat
  open_price : ℚ
  high_price : ℚ
  low_price : ℚ
  close_price : ℚ
  volume : ℤ
deriving Repr, DecidableEq

/-- Trade dates of a list of bars (the `DatetimeIndex` of the frame). -/
def timestamps (bars : List Bar) : List Nat := bars.map (·.timestamp)

/-- The §3 price invariants of the canonical OHLCV schema:
`high ≥ max(open, close, low)` and `low ≤ min(open, close, high)`. -/
def priceOk (b : Bar) : Prop :=
  b.high_price ≥ max b.open_price (max b.close_price b.low_price) ∧
    b.low_price ≤ min b.open_price (min b.close_price b.high_price)

instance (b : Bar) : Decidable (priceOk b) := by
  unfold priceOk; infer_instance

/-- `StockDailyRepository.get_daily_data` (repositories/stock_daily_data.py
lines 23-36): rows of `symbol` with `start ≤ trade_date ≤ end`. -/
def get_daily_data (repo : List Bar) (symbol : String) (startD endD : Nat) :
    List Bar :=
  repo.filter (fun b =>
    b.symbol == symbol && decide (startD ≤ b.timestamp) &&
      decide (b.timestamp ≤ endD))

/-- `_filter_date_range` (stock_daily_service.py lines 184-215) on a
frame with a `DatetimeIndex`: keep rows with `start ≤ index ≤ end`. -/
def filter_date_range (bars : List Bar) (startD endD : Nat) : List Bar :=
  bars.filter (fun b =>
    decide (startD ≤ b.timestamp) && decide (b.timestamp ≤ endD))

/-- Minimum of a nonempty list of day numbers (`cached_df.index.min()`);
`0` for the empty list, which the service never queries. -/
def listMin : List Nat → Nat
  | [] => 0
  | x :: xs => xs.foldl min x

/-- Maximum of a nonempty list of day numbers (`cached_df.index.max()`). -/
def listMax : List Nat → Nat
  | [] => 0
  | x :: xs => xs.foldl max x

/-- `pd.date_range(start, end, freq="B")` followed by the
`is_trading_day` filter (stock_daily_service.py lines 55-57): all days
`d` in `[lo, hi]` with weekday Monday..Friday, then without holidays. -/
def tradingDaysBetween (lo hi : Nat) : List Nat :=
  (((List.range (hi + 1 - lo)).map (lo + ·)).filter
      (fun d => decide (weekday d < 5))).filter is_trading_day

/-- The trading days in `[listMin (timestamps cached), listMax …]` that
are absent from the cached index (`missing_days`, lines 58-60). -/
def missingDays (cached : List Bar) : List Nat :=
  (tradingDaysBetween (listMin (timestamps cached))
      (listMax (timestamps cached))).filter
    (fun d => ! (timestamps cached).contains d)

/-- The callable members of the `StockInfoFetcher` protocol
(fetcher/interface.py lines 79-92); `DataSourceManager.bind` exposes
exactly these names on the proxy it returns (manager.py lines 369-436). -/
def stockInfoFetcherProtocolMembers : List String :=
  ["get_all_stock_basic_info", "get_stock_basic_info", "fetch_stock_daily_data"]

/-- The attribute the cache service looks up on the bound proxy
(stock_daily_service.py line 75). -/
def requestedFetchMethod : String := "fetch_stock_data"

/-- Errors surfaced by the embedded Python code. -/
inductive PyErr where
  | attributeError (name : String)
  | valueError (msg : String)
deriving Repr, DecidableEq

/-- Result of one `get_daily_by_code` call: the returned frame (or the
exception that propagated) together with the list of date ranges for
which an upstream fetch was actually issued. -/
structure DailyCallResult where
  result : Except PyErr (List Bar)
  fetchedRanges : List (Nat × Nat)
deriving Repr

/-- The effective start date of a request (`adjusted_start_dt`,
stock_daily_service.py line 36): `max(start, listing_date)` when the
listing date is known, else `start`. -/
def effectiveStart (listing : Option Nat) (startD : Nat) : Nat :=
  match listing with
  | some l => max startD l
  | none => startD

/-- `StockDailyService.get_daily_by_code` (stock_daily_service.py lines
24-104).  Steps: adjust the start date by the listing date; return empty
when the adjusted start exceeds the end; load the cached slice; if the
cache is non-empty and no trading day between its own min and max index
is missing, return the cached slice filtered to
`[adjusted_start, end]` with no fetch.  Otherwise the code builds
`tasks = [stock_fetcher.fetch_stock_data(...) ...]` (lines 74-79); the
proxy produced by `manager.bind(StockInfoFetcher)` has no attribute
`fetch_stock_data` (the protocol and all providers define
`fetch_stock_daily_data` instead), so the attribute lookup raises
`AttributeError` before any upstream fetch is issued. -/
def get_daily_by_code (repo : List Bar) (listing : Option Nat)
    (code : String) (startD endD : Nat) : DailyCallResult :=
  let adjStart := effectiveStart listing startD
  if adjStart > endD then ⟨.ok [], []⟩
  else
    let cached := get_daily_data repo code adjStart endD
    if cached.isEmpty then
      ⟨.error (.attributeError requestedFetchMethod), []⟩
    else
      if (missingDays cached).isEmpty then
        ⟨.ok (filter_date_range cached adjStart endD), []⟩
      else
        ⟨.error (.attributeError requestedFetchMethod), []⟩

/-- A well-formed sample bar used by the concrete scenarios. -/
def mkBar (sym : String) (d : Nat) : Bar :=
  { symbol := sym, timestamp := d, open_price := 10, high_price := 11,
    low_price := 9, close_price := 10, volume := 100 }

/-- Repository state with a gap-free cached run 2024-01-03..2024-01-04
that starts after the requested start 2024-01-02 and ends before the
requested end 2024-01-05. -/
def repoEdgeGap : List Bar := [mkBar "600000" 19725, mkBar "600000" 19726]

/-- C1 counterexample: requesting 2024-01-02..2024-01-05 against a cache
holding only 2024-01-03..2024-01-04 (no interior gap) returns the cached
bars with **no** upstream fetch, although 2024-01-02 is a trading day of
the effective range that is not covered by the cache — refuting the
claim that cached data is served without a fetch only when the cache
covers the whole effective range. -/
theorem get_daily_edge_gap_no_fetch :
    (get_daily_by_code repoEdgeGap none "600000" 19724 19727).result =
      .ok [mkBar "600000" 19725, mkBar "600000" 19726] ∧
    (get_daily_by_code repoEdgeGap none "600000" 19724 19727).fetchedRanges = [] ∧
    is_trading_day 19724 = true ∧
    ¬ (19724 ∈ timestamps repoEdgeGap) := by
  refine ⟨by rfl, by rfl, by decide, by decide⟩

/-- C1 (amended): the cache service issues no upstream fetch on any
path (the fetch path instead raises `AttributeError`); it returns the
cached slice exactly when the cached bars for
`[effective_start, end]` are non-empty and no trading day between the
cached minimum and maximum date is missing — coverage of the edges of
the effective range is not checked and uncovered edge days are not
fetched; every other non-degenerate request raises. -/
theorem get_daily_cache_decision (repo : List Bar) (listing : Option Nat)
    (code : String) (s e : Nat) :
    (get_daily_by_code repo listing code s e).fetchedRanges = [] ∧
    (effectiveStart listing s > e →
      get_daily_by_code repo listing code s e = ⟨.ok [], []⟩) ∧
    (effectiveStart listing s ≤ e →
      get_daily_data repo code (effectiveStart listing s) e ≠ [] →
      missingDays (get_daily_data repo code (effectiveStart listing s) e) = [] →
      get_daily_by_code repo listing code s e =
        ⟨.ok (filter_date_range
            (get_daily_data repo code (effectiveStart listing s) e)
            (effectiveStart listing s) e), []⟩) ∧
    (effectiveStart listing s ≤ e →
      (get_daily_data repo code (effectiveStart listing s) e = [] ∨
        missingDays (get_daily_data repo code (effectiveStart listing s) e) ≠ []) →
      (get_daily_by_code repo listing code s e).result =
        .error (.attributeError requestedFetchMethod)) := by
  unfold get_daily_by_code
  by_cases h1 : effectiveStart listing s > e
  · simp [h1]
  · simp only [if_neg h1]
    by_cases h2 : get_daily_data repo code (effectiveStart listing s) e = []
    · simp [h2, List.isEmpty_iff]
      omega
    · simp only [List.isEmpty_iff, if_neg h2]
      by_cases h3 :
          missingDays (get_daily_data repo code (effectiveStart listing s) e) = []
      · simp [h2, h3]
        omega
      · simp [h2, h3]
        omega

/-- Witness for `get_daily_cache_decision`: a request fully covered by
the cache (2024-01-03..2024-01-04) takes the cache-hit branch. -/
theorem get_daily_cache_decision_witness :
    effectiveStart none 19725 ≤ 19726 ∧
    get_daily_data repoEdgeGap "600000" (effectiveStart none 19725) 19726 ≠ [] ∧
    missingDays (get_daily_data repoEdgeGap "600000"
        (effectiveStart none 19725) 19726) = [] ∧
    get_daily_by_code repoEdgeGap none "600000" 19725 19726 =
      ⟨.ok (filter_date_range
          (get_daily_data repoEdgeGap "600000" (effectiveStart none 19725) 19726)
          (effectiveStart none 19725) 19726), []⟩ :=
  ⟨by decide, by decide, by decide,
    (get_daily_cache_decision repoEdgeGap none "600000" 19725 19726).2.2.1
      (by decide) (by decide) (by decide)⟩

/-! ## Repository surface (repositories/base.py, stock_daily_data.py) -/

/-- The methods defined on `BaseRepository` (repositories/base.py lines
58-235). -/
def baseRepositoryMethods : List String :=
  ["get_by_id", "get_all", "get_count", "exists", "get_first", "list",
    "create", "update", "delete", "delete_by_id", "upsert", "bulk_upsert"]

/-- The methods resolvable on a `StockDailyRepository` instance: its own
methods (repositories/stock_daily_data.py lines 23-40) plus the
inherited `BaseRepository` methods. -/
def stockDailyRepositoryMethods : List String :=
  ["get_daily_data", "upsert_stock_dailys_bydf"] ++ baseRepositoryMethods

/-- `StockDailyRepository.upsert_stock_dailys_bydf` (stock_daily_data.py
lines 38-40): the body is `await self.upsert_many(datas, auto_commit=True)`.
Attribute resolution of `upsert_many` against the instance fails —
neither `StockDailyRepository` nor `BaseRepository` defines it (the
existing bulk method is named `bulk_upsert`) — so the call raises
`AttributeError` and nothing is persisted. -/
def upsert_stock_dailys_bydf (repo : List Bar) (df : List Bar) :
    Except PyErr (List Bar) :=
  if stockDailyRepositoryMethods.contains "upsert_many" then
    .ok (df ++ repo)
  else
    .error (.attributeError "upsert_many")

/-- C2: the persistence step of `get_daily_by_code` never succeeds — for
every repository state and every merged frame,
`upsert_stock_dailys_bydf` raises `AttributeError` because the method it
calls, `upsert_many`, does not exist on the repository class (only
`upsert` and `bulk_upsert` do), so a call with freshly fetched data
cannot return normally. -/
theorem upsert_stock_dailys_bydf_raises (repo df : List Bar) :
    upsert_stock_dailys_bydf repo df = .error (.attributeError "upsert_many") ∧
    ("upsert_many" ∈ stockDailyRepositoryMethods) = False ∧
    "bulk_upsert" ∈ stockDailyRepositoryMethods ∧
    "upsert" ∈ stockDailyRepositoryMethods := by
  refine ⟨?_, by decide, by decide, by decide⟩
  unfold upsert_stock_dailys_bydf
  rw [if_neg (by decide)]

/-- C3: the fetch step of `get_daily_by_code` never reaches the router —
`fetch_stock_data` is not among the callable members of the
`StockInfoFetcher` protocol, so the proxy returned by
`manager.bind(StockInfoFetcher)` has no such attribute; on the concrete
cold-cache request S1 (empty repository, 600000, 2024-01-02..2024-01-05)
the call raises `AttributeError` to its caller and issues zero upstream
fetches, instead of fetching each missing range and swallowing errors. -/
theorem get_daily_fetch_path_raises :
    ¬ (requestedFetchMethod ∈ stockInfoFetcherProtocolMembers) ∧
    (get_daily_by_code [] none "600000" 19724 19727).result =
      .error (.attributeError "fetch_stock_data") ∧
    (get_daily_by_code [] none "600000" 19724 19727).fetchedRanges = [] := by
  exact ⟨by decide, by rfl, by rfl⟩

/-! ## Result-shape invariants of `get_daily_by_code` (claim C4) -/

/-- Filtering by a conjunction of predicates yields a sublist of
filtering by the first alone. -/
theorem filter_and_sublist (l : List Bar) (p q : Bar → Bool) :
    List.Sublist (l.filter (fun a => p a && q a)) (l.filter p) := by
  induction l with
  | nil => simp
  | cons a t ih =>
    by_cases hp : p a
    · by_cases hq : q a
      · simpa [List.filter_cons, hp, hq] using ih.cons₂ a
      · simpa [List.filter_cons, hp, hq] using ih.cons a
    · simpa [List.filter_cons, hp] using ih

/-- A bar whose stored prices violate the §3 invariant
(`high < open`), as nothing in the service or repository validates
prices. -/
def badBar : Bar :=
  { symbol := "600000", timestamp := 19725, open_price := 2,
    high_price := 1, low_price := 1, close_price := 1, volume := 100 }

/-- C4 counterexample: with a repository holding a malformed bar
(2024-01-03, high 1 < open 2), `get_daily_by_code` serves that bar
unchanged on the cache-hit path, so the returned row violates
`high ≥ max(open, close, low)` — the claimed price invariant does not
hold for every returned result. -/
theorem get_daily_returns_invalid_row :
    (get_daily_by_code [badBar] none "600000" 19725 19725).result =
      .ok [badBar] ∧ ¬ priceOk badBar := by
  exact ⟨by rfl, by decide⟩

/-- C4 (amended): every bar of a normally returned result lies within
`[max(start, listing_date), end]`, belongs to the repository slice of
the requested symbol, and — provided the repository holds at most one
bar per trade date for the symbol, as its UNIQUE(symbol, trade_date)
constraint guarantees — no two returned rows share a timestamp; the
price invariants hold for the returned rows only when the repository
rows already satisfy them, since the service performs no validation. -/
theorem get_daily_result_bounds (repo : List Bar) (listing : Option Nat)
    (code : String) (s e : Nat) (bars : List Bar)
    (hres : (get_daily_by_code repo listing code s e).result = .ok bars) :
    (∀ b ∈ bars, effectiveStart listing s ≤ b.timestamp ∧ b.timestamp ≤ e ∧
      b ∈ repo ∧ b.symbol = code) ∧
    ((timestamps (repo.filter (fun b => b.symbol == code))).Nodup →
      (timestamps bars).Nodup) ∧
    ((∀ b ∈ repo, priceOk b) → ∀ b ∈ bars, priceOk b) := by
  have hsub : List.Sublist bars (repo.filter (fun b => b.symbol == code)) ∧
      ∀ b ∈ bars, effectiveStart listing s ≤ b.timestamp ∧ b.timestamp ≤ e := by
    unfold get_daily_by_code at hres
    by_cases h1 : effectiveStart listing s > e
    · rw [if_pos h1] at hres
      cases hres
      exact ⟨List.nil_sublist _, by simp⟩
    · rw [if_neg h1] at hres
      by_cases h2 : (get_daily_data repo code (effectiveStart listing s) e).isEmpty
      · rw [if_pos h2] at hres; cases hres
      · rw [if_neg h2] at hres
        by_cases h3 :
            (missingDays (get_daily_data repo code (effectiveStart listing s) e)).isEmpty
        · rw [if_pos h3] at hres
          cases hres
          constructor
          · have hstep1 :
                List.Sublist
                  (filter_date_range
                    (get_daily_data repo code (effectiveStart listing s) e)
                    (effectiveStart listing s) e)
                  (get_daily_data repo code (effectiveStart listing s) e) :=
              List.filter_sublist _
            have hstep2 :
                List.Sublist
                  (get_daily_data repo code (effectiveStart listing s) e)
                  (repo.filter (fun b =>
                    b.symbol == code && decide (effectiveStart listing s ≤ b.timestamp))) := by
              unfold get_daily_data
              exact filter_and_sublist repo _ _
            have hstep3 :
                List.Sublist
                  (repo.filter (fun b =>
                    b.symbol == code && decide (effectiveStart listing s ≤ b.timestamp)))
                  (repo.filter (fun b => b.symbol == code)) :=
              filter_and_sublist repo _ _
            exact hstep1.trans (hstep2.trans hstep3)
          · intro b hb
            have := List.of_mem_filter hb
            simp only [Bool.and_eq_true, decide_eq_true_eq] at this
            exact this
        · rw [if_neg h3] at hres; cases hres
  refine ⟨?_, ?_, ?_⟩
  · intro b hb
    have hmem : b ∈ repo.filter (fun b => b.symbol == code) :=
      hsub.1.subset hb
    have hsym := List.of_mem_filter hmem
    simp only [beq_iff_eq] at hsym
    exact ⟨(hsub.2 b hb).1, (hsub.2 b hb).2, List.mem_of_mem_filter hmem, hsym⟩
  · intro hnd
    unfold timestamps
    exact List.Nodup.sublist (hsub.1.map (·.timestamp)) hnd
  · intro hall b hb
    have hmem : b ∈ repo.filter (fun b => b.symbol == code) :=
      hsub.1.subset hb
    exact hall b (List.mem_of_mem_filter hmem)

/-- Witness for `get_daily_result_bounds`: the cache-hit result of the
2024-01-02..2024-01-05 request over `repoEdgeGap` satisfies the bounds,
and its rows satisfy the price invariants because the repository rows
do. -/
theorem get_daily_result_bounds_witness :
    (get_daily_by_code repoEdgeGap none "600000" 19724 19727).result =
      .ok [mkBar "600000" 19725, mkBar "600000" 19726] ∧
    (∀ b ∈ [mkBar "600000" 19725, mkBar "600000" 19726],
      effectiveStart none 19724 ≤ b.timestamp ∧ b.timestamp ≤ 19727 ∧
        b ∈ repoEdgeGap ∧ b.symbol = "600000") ∧
    (∀ b ∈ [mkBar "600000" 19725, mkBar "600000" 19726], priceOk b) :=
  ⟨by rfl,
    (get_daily_result_bounds repoEdgeGap none "600000" 19724 19727 _ (by rfl)).1,
    (get_daily_result_bounds repoEdgeGap none "600000" 19724 19727 _
        (by rfl)).2.2 (by decide)⟩

/-! ## Provider registry and router (fetcher/manager.py) -/

/-- A registered data source (`StockDataSource` state relevant to the
router): its unique name, health flag and last health-check time.
`register_data_source` (manager.py lines 243-252) rejects duplicate
names, so names identify sources. -/
structure DataSource where
  name : String
  isHealthy : Bool
  lastCheckTime : Option Nat
deriving Repr, DecidableEq

/-- `MethodRegistry` (manager.py lines 20-85): per-(provider, method)
weight, set of active task ids, call/error counters, last call time and
EMA success rate. -/
structure MethodRegistry where
  weight : ℚ
  activeTasks : Finset Nat
  callCount : Nat
  errorCount : Nat
  successRate : ℚ
  lastCallTime : Option Nat
deriving DecidableEq

/-- The EMA smoothing factor `_ema_alpha = 0.2` (manager.py line 33). -/
def emaAlpha : ℚ := 1 / 5

/-- `MethodRegistry.__init__` (manager.py lines 23-34): counters at
zero, no active tasks, success rate initially `1.0`. -/
def initRegistry (w : ℚ) : MethodRegistry :=
  { weight := w, activeTasks := ∅, callCount := 0, errorCount := 0,
    successRate := 1, lastCallTime := none }

/-- `MethodRegistry.record_success` (manager.py lines 54-61). -/
def record_success (r : MethodRegistry) (now : Nat) : MethodRegistry :=
  { r with
    callCount := r.callCount + 1
    lastCallTime := some now
    successRate := (1 - emaAlpha) * r.successRate + emaAlpha * 1 }

/-- `MethodRegistry.record_error` (manager.py lines 63-71). -/
def record_error (r : MethodRegistry) (now : Nat) : MethodRegistry :=
  { r with
    callCount := r.callCount + 1
    errorCount := r.errorCount + 1
    lastCallTime := some now
    successRate := (1 - emaAlpha) * r.successRate + emaAlpha * 0 }

/-- The score of one candidate registration
(`choose_implementation`, manager.py lines 112-113):
`weight · success_rate · 1/(1+len(active_tasks))`. -/
def scoreOf (r : MethodRegistry) : ℚ :=
  r.weight * r.successRate * (1 / (1 + (r.activeTasks.card : ℚ)))

/-- The candidate set (`available`, manager.py line 104): registrations
whose provider is currently flagged healthy. -/
def healthyImpls (impls : List (DataSource × MethodRegistry)) :
    List (DataSource × MethodRegistry) :=
  impls.filter (fun p => p.1.isHealthy)

/-- Total score of the candidate set (`total`, manager.py line 117). -/
def totalScore (impls : List (DataSource × MethodRegistry)) : ℚ :=
  ((healthyImpls impls).map (fun p => scoreOf p.2)).sum

/-- The weighted-random scan (manager.py lines 122-127): walk the scored
candidates accumulating `upto`; return the first whose running sum
reaches the draw `r`. -/
def weightedScan :
    List ((DataSource × MethodRegistry) × ℚ) → ℚ → ℚ →
      Option (DataSource × MethodRegistry)
  | [], _, _ => none
  | (p, sc) :: rest, upto, r =>
    if upto + sc ≥ r then some p else weightedScan rest (upto + sc) r

/-- Index of the first position whose cumulative sum reaches `r`
(specification-side description of the weighted draw). -/
def firstCumGe : List ℚ → ℚ → Option Nat
  | [], _ => none
  | sc :: rest, r =>
    if sc ≥ r then some 0 else (firstCumGe rest (r - sc)).map (· + 1)

/-- `ServiceMethod.choose_implementation` (manager.py lines 102-129):
filter to healthy providers; if none, `None`; if the total score is ≤ 0,
`random.choice` (modelled by the uniform index `u`); otherwise the
weighted-random scan over the draw `r`, with `available[-1]` as the
unreachable fallback. -/
def choose_implementation (impls : List (DataSource × MethodRegistry))
    (u : Nat) (r : ℚ) : Option (DataSource × MethodRegistry) :=
  match healthyImpls impls with
  | [] => none
  | a :: rest =>
    let scores := (a :: rest).map (fun p => (p, scoreOf p.2))
    let total := ((a :: rest).map (fun p => scoreOf p.2)).sum
    if total ≤ 0 then
      some ((a :: rest).get ⟨u % (rest.length + 1), Nat.mod_lt u (Nat.succ_pos _)⟩)
    else
      match weightedScan scores 0 r with
      | some p => some p
      | none => (a :: rest).getLast?

/-- The staleness test of `DataSourceManager.is_healthy` (manager.py
lines 329-333): a check is needed when there is no previous check or
the last one is older than `health_check_interval = 300` seconds. -/
def needsCheck (src : DataSource) (now : Nat) : Bool :=
  match src.lastCheckTime with
  | none => true
  | some t => decide (now - t > 300)

/-- `DataSourceManager.is_healthy` (manager.py lines 323-345) on a
registered source: when a check is needed or the source is flagged
unhealthy, run `health_check()` (`probe`; `none` models the probe
raising) and update the flag — on success also the check time, on an
exception only the flag (the source keeps its old `last_check_time`).
Returns the updated source and the flag the router observes. -/
def managerIsHealthy (src : DataSource) (now : Nat) (probe : Option Bool) :
    DataSource × Bool :=
  if needsCheck src now || !src.isHealthy then
    match probe with
    | some b => ({ src with isHealthy := b, lastCheckTime := some now }, b)
    | none => ({ src with isHealthy := false }, false)
  else (src, src.isHealthy)

/-- Errors raised by `ServiceMethod.call`. -/
inductive CallErr where
  | noProvider
  | sourceUnavailable
  | upstream (tag : Nat)
deriving Repr, DecidableEq

/-- The tenacity retry loop (`AsyncRetrying(stop_after_attempt(retries),
reraise=True)`, manager.py lines 176-186) over the per-attempt results
of `_invoke`: the first success wins, otherwise the last exception is
re-raised.  The loop body performs no registry update. -/
def retryResult {α : Type} : List (Except CallErr α) → Except CallErr α
  | [] => .error .noProvider
  | [a] => a
  | a :: rest =>
    match a with
    | .ok v => .ok v
    | .error _ => retryResult rest

/-- The exception of the last attempt (what `reraise=True` re-raises
when every attempt fails). -/
def lastErrD {α : Type} : List (Except CallErr α) → CallErr
  | [] => .noProvider
  | [.error e] => e
  | [.ok _] => .noProvider
  | _ :: rest => lastErrD rest

/-- How many attempts the retry loop actually runs: all of them when
every attempt raises, otherwise up to and including the first success. -/
def attemptsUsed {α : Type} : List (Except CallErr α) → Nat
  | [] => 0
  | .ok _ :: _ => 1
  | .error _ :: rest => 1 + attemptsUsed rest

/-- In-place mutation of the chosen provider and registration, keyed by
the provider's unique name (`register_data_source` forbids duplicate
names, manager.py lines 246-247). -/
def updateImpl (impls : List (DataSource × MethodRegistry)) (name : String)
    (src : DataSource) (reg : MethodRegistry) :
    List (DataSource × MethodRegistry) :=
  impls.map (fun q => if q.1.name = name then (src, reg) else q)

/-- Observable outcome of one `ServiceMethod.call`. -/
structure CallOutcome (α : Type) where
  result : Except CallErr α
  impls : List (DataSource × MethodRegistry)
  chosenAfter : Option (DataSource × MethodRegistry)
  probed : List String
  invocations : Nat

/-- `ServiceMethod.call` (manager.py lines 131-202).  Selection via
`choose_implementation` (raise `DataSourceUnavailableError` when it
yields nothing, before touching any provider); then the lazy health
gate `manager.is_healthy` on the *selected* source only (record an
error and raise when it reports unhealthy); then add the task id to
`active_tasks`, run the retry loop, and on success `record_success`; on
the final exception `record_error`, flag the source unhealthy, stamp
`last_check_time = now` and re-raise; the task id is discarded in the
`finally`. -/
def serviceCall {α : Type} (impls : List (DataSource × MethodRegistry))
    (u : Nat) (r : ℚ) (now : Nat) (probe : Option Bool) (tid : Nat)
    (attempts : List (Except CallErr α)) : CallOutcome α :=
  match choose_implementation impls u r with
  | none => ⟨.error .noProvider, impls, none, [], 0⟩
  | some (src, reg) =>
    let checked := needsCheck src now || !src.isHealthy
    let probedNames := if checked then [src.name] else []
    let gateRes := managerIsHealthy src now probe
    if gateRes.2 = false then
      let reg1 := record_error reg now
      ⟨.error .sourceUnavailable, updateImpl impls src.name gateRes.1 reg1,
        some (gateRes.1, reg1), probedNames, 0⟩
    else
      let regIn := { reg with activeTasks := insert tid reg.activeTasks }
      match retryResult attempts with
      | .ok v =>
        let reg1 := record_success regIn now
        let reg2 := { reg1 with activeTasks := reg1.activeTasks.erase tid }
        ⟨.ok v, updateImpl impls src.name gateRes.1 reg2,
          some (gateRes.1, reg2), probedNames, attemptsUsed attempts⟩
      | .error e =>
        let reg1 := record_error regIn now
        let reg2 := { reg1 with activeTasks := reg1.activeTasks.erase tid }
        let srcDown := { gateRes.1 with
          isHealthy := false
          lastCheckTime := some now }
        ⟨.error e, updateImpl impls src.name srcDown reg2,
          some (srcDown, reg2), probedNames, attemptsUsed attempts⟩

/-- `DataSourceManager.stat` (manager.py lines 438-481): for every
registered source, report a **fresh** `health_check()` probe result next
to the stored `last_check_time`; the loop never assigns
`source.is_healthy` or `source.last_check_time`, so the second
component returns the sources exactly as they were. -/
def statModel (sources : List DataSource) (probe : String → Bool) :
    List (String × Bool × Option Nat) × List DataSource :=
  (sources.map (fun s => (s.name, probe s.name, s.lastCheckTime)), sources)

/-! ### Selection lemmas (claim C5) -/

/-- The weighted scan is the first candidate whose cumulative score
reaches the draw. -/
theorem weightedScan_eq (l : List ((DataSource × MethodRegistry) × ℚ))
    (upto r : ℚ) :
    weightedScan l upto r =
      (firstCumGe (l.map (·.2)) (r - upto)).bind
        (fun k => (l.get? k).map (·.1)) := by
  induction l generalizing upto with
  | nil => simp [weightedScan, firstCumGe]
  | cons hd tl ih =>
    obtain ⟨p, sc⟩ := hd
    by_cases hge : upto + sc ≥ r
    · have hge2 : sc ≥ r - upto := by linarith
      simp [weightedScan, firstCumGe, hge, hge2]
    · have hge2 : ¬ sc ≥ r - upto := by
        intro hc
        exact hge (by linarith)
      have harith : r - upto - sc = r - (upto + sc) := by ring
      simp only [weightedScan, firstCumGe, if_neg hge, if_neg hge2,
        List.map_cons, harith, ih (upto + sc)]
      cases hfc : firstCumGe (tl.map (·.2)) (r - (upto + sc)) with
      | none => simp
      | some k => simp [List.get?]

/-- When the draw lies below the total, the cumulative scan always finds
a candidate. -/
theorem firstCumGe_isSome (l : List ℚ) (r : ℚ) (hne : l ≠ [])
    (hr : r ≤ l.sum) : ∃ k, firstCumGe l r = some k ∧ k < l.length := by
  induction l generalizing r with
  | nil => exact absurd rfl hne
  | cons sc rest ih =>
    by_cases hge : sc ≥ r
    · exact ⟨0, by simp [firstCumGe, hge], Nat.succ_pos _⟩
    · have hrest : rest ≠ [] := by
        intro hc
        subst hc
        simp only [List.sum_cons, List.sum_nil, add_zero] at hr
        exact hge hr
      have hr2 : r - sc ≤ rest.sum := by
        simp only [List.sum_cons] at hr
        linarith
      obtain ⟨k, hk, hlt⟩ := ih (r - sc) hrest hr2
      exact ⟨k + 1, by simp [firstCumGe, hge, hk],
        Nat.succ_lt_succ hlt⟩

/-- Any candidate returned by the weighted scan comes from the scanned
list. -/
theorem weightedScan_mem (l : List ((DataSource × MethodRegistry) × ℚ))
    (upto r : ℚ) (p : DataSource × MethodRegistry)
    (h : weightedScan l upto r = some p) : p ∈ l.map (·.1) := by
  induction l generalizing upto with
  | nil => simp [weightedScan] at h
  | cons hd tl ih =>
    obtain ⟨q, sc⟩ := hd
    by_cases hge : upto + sc ≥ r
    · simp only [weightedScan, if_pos hge, Option.some.injEq] at h
      subst h
      simp
    · simp only [weightedScan, if_neg hge] at h
      simp [ih (upto + sc) h]

/-- Whatever `choose_implementation` returns belongs to the healthy
candidate set. -/
theorem choose_implementation_mem (impls : List (DataSource × MethodRegistry))
    (u : Nat) (r : ℚ) (p : DataSource × MethodRegistry)
    (h : choose_implementation impls u r = some p) : p ∈ healthyImpls impls := by
  cases hav : healthyImpls impls with
  | nil => simp [choose_implementation, hav] at h
  | cons a rest =>
    simp only [choose_implementation, hav] at h
    by_cases ht : ((a :: rest).map (fun p => scoreOf p.2)).sum ≤ 0
    · rw [if_pos ht] at h
      cases h
      exact List.get_mem _ _ _
    · rw [if_neg ht] at h
      cases hscan : weightedScan ((a :: rest).map (fun p => (p, scoreOf p.2))) 0 r with
      | some q =>
        rw [hscan] at h
        simp only [Option.some.injEq] at h
        subst h
        have := weightedScan_mem _ 0 r q hscan
        simpa [List.map_map, Function.comp] using this
      | none =>
        rw [hscan] at h
        obtain ⟨hne, rfl⟩ := List.mem_getLast?_eq_getLast (show _ ∈ _ from h)
        exact List.getLast_mem _

/-- A demonstration registry state: one healthy provider (weight 1.2)
and one unhealthy provider (weight 1.0). -/
def demoImpls : List (DataSource × MethodRegistry) :=
  [(⟨"eastmoney", true, some 0⟩, initRegistry (6 / 5)),
    (⟨"sina", false, some 0⟩, initRegistry 1)]

/-- C5: on every routed call the candidate set is exactly the
registrations whose provider is flagged healthy; each candidate scores
`weight · success_rate · 1/(1+active_count)`; an empty candidate set
makes the call fail with the no-provider error without invoking any
provider; a non-positive total score picks uniformly (`random.choice`,
modelled by the uniform index `u`); a positive total picks the first
candidate whose cumulative score reaches the uniform draw
`r ∈ [0, total]` — the weighted-random draw proportional to score. -/
theorem choose_implementation_spec (impls : List (DataSource × MethodRegistry))
    (u : Nat) (r : ℚ) :
    (choose_implementation impls u r = none ↔ healthyImpls impls = []) ∧
    (∀ p, choose_implementation impls u r = some p →
      p ∈ impls ∧ p.1.isHealthy = true) ∧
    (∀ reg : MethodRegistry,
      scoreOf reg = reg.weight * reg.successRate *
        (1 / (1 + (reg.activeTasks.card : ℚ)))) ∧
    (healthyImpls impls ≠ [] → totalScore impls ≤ 0 →
      choose_implementation impls u r =
        (healthyImpls impls).get? (u % (healthyImpls impls).length)) ∧
    (healthyImpls impls ≠ [] → 0 < totalScore impls → 0 ≤ r →
      r ≤ totalScore impls →
      choose_implementation impls u r =
        (firstCumGe ((healthyImpls impls).map (fun p => scoreOf p.2)) r).bind
          (fun k => (healthyImpls impls).get? k)) ∧
    (∀ (now tid : Nat) (probe : Option Bool)
        (attempts : List (Except CallErr Unit)),
      healthyImpls impls = [] →
      (serviceCall impls u r now probe tid attempts).result =
          .error .noProvider ∧
        (serviceCall impls u r now probe tid attempts).invocations = 0) := by
  refine ⟨?_, ?_, fun reg => rfl, ?_, ?_, ?_⟩
  · constructor
    · intro hnone
      cases hav : healthyImpls impls with
      | nil => rfl
      | cons a rest =>
        simp only [choose_implementation, hav] at hnone
        by_cases ht : ((a :: rest).map (fun p => scoreOf p.2)).sum ≤ 0
        · rw [if_pos ht] at hnone
          cases hnone
        · rw [if_neg ht] at hnone
          cases hscan :
              weightedScan ((a :: rest).map (fun p => (p, scoreOf p.2))) 0 r with
          | some q => rw [hscan] at hnone; cases hnone
          | none =>
            rw [hscan] at hnone
            rw [List.getLast?_eq_getLast_of_ne_nil (List.cons_ne_nil a rest)]
              at hnone
            cases hnone
    · intro hav
      simp [choose_implementation, hav]
  · intro p hp
    have hmem := choose_implementation_mem impls u r p hp
    have := List.mem_filter.mp hmem
    exact ⟨this.1, this.2⟩
  · intro hne ht
    cases hav : healthyImpls impls with
    | nil => exact absurd hav hne
    | cons a rest =>
      have ht2 : ((a :: rest).map (fun p => scoreOf p.2)).sum ≤ 0 := by
        have : totalScore impls = ((a :: rest).map (fun p => scoreOf p.2)).sum := by
          unfold totalScore
          rw [hav]
        rw [this] at ht
        exact ht
      simp only [choose_implementation, hav, if_pos ht2]
      have hlt : u % (a :: rest).length < (a :: rest).length :=
        Nat.mod_lt u (by simp)
      rw [List.get?_eq_get hlt]
      rfl
  · intro hne ht hr0 hrt
    cases hav : healthyImpls impls with
    | nil => exact absurd hav hne
    | cons a rest =>
      have hts : totalScore impls = ((a :: rest).map (fun p => scoreOf p.2)).sum := by
        unfold totalScore
        rw [hav]
      have ht2 : ¬ ((a :: rest).map (fun p => scoreOf p.2)).sum ≤ 0 := by
        rw [hts] at ht
        linarith
      simp only [choose_implementation, hav, if_neg ht2]
      have heq := weightedScan_eq ((a :: rest).map (fun p => (p, scoreOf p.2))) 0 r
      have hmap : ((a :: rest).map (fun p => (p, scoreOf p.2))).map (·.2) =
          (a :: rest).map (fun p => scoreOf p.2) := by
        simp [List.map_map, Function.comp]
      rw [hmap, sub_zero] at heq
      obtain ⟨k, hk, hklt⟩ := firstCumGe_isSome
        ((a :: rest).map (fun p => scoreOf p.2)) r (by simp)
        (by rw [← hts]; exact hrt)
      have hget : (((a :: rest).map (fun p => (p, scoreOf p.2))).get? k).map (·.1) =
          (a :: rest).get? k := by
        rw [List.get?_map]
        cases hg : (a :: rest).get? k with
        | none => simp
        | some x => simp
      have hklt2 : k < (a :: rest).length := by simpa using hklt
      rw [heq, hk]
      simp only [Option.some_bind]
      rw [hget, List.get?_eq_get hklt2]
  · intro now tid probe attempts hav
    have hnone : choose_implementation impls u r = none := by
      cases hav2 : healthyImpls impls with
      | nil => simp [choose_implementation, hav2]
      | cons a rest => rw [hav2] at hav; cases hav
    simp [serviceCall, hnone]

/-- Witness for `choose_implementation_spec`: over `demoImpls` the
healthy candidate set is the single eastmoney registration, the total
score is 1.2 > 0, and the weighted draw at r = 1 selects it. -/
theorem choose_implementation_spec_witness :
    healthyImpls demoImpls ≠ [] ∧ 0 < totalScore demoImpls ∧ (0 : ℚ) ≤ 1 ∧
    (1 : ℚ) ≤ totalScore demoImpls ∧
    choose_implementation demoImpls 0 1 =
      (firstCumGe ((healthyImpls demoImpls).map (fun p => scoreOf p.2)) 1).bind
        (fun k => (healthyImpls demoImpls).get? k) :=
  ⟨by decide, by norm_num [totalScore, healthyImpls, demoImpls, scoreOf,
      initRegistry], by norm_num,
    by norm_num [totalScore, healthyImpls, demoImpls, scoreOf, initRegistry],
    (choose_implementation_spec demoImpls 0 1).2.2.2.2.1
      (by decide)
      (by norm_num [totalScore, healthyImpls, demoImpls, scoreOf, initRegistry])
      (by norm_num)
      (by norm_num [totalScore, healthyImpls, demoImpls, scoreOf, initRegistry])⟩

/-! ### Health-probe scope (claim C6) -/

/-- Registry state with an unhealthy provider whose last check is stale
(sina, checked at t=0) next to a healthy, freshly checked provider
(eastmoney, checked at t=400). -/
def staleImpls : List (DataSource × MethodRegistry) :=
  [(⟨"sina", false, some 0⟩, initRegistry 1),
    (⟨"eastmoney", true, some 400⟩, initRegistry 1)]

/-- Over `staleImpls`, selection at draw 1/2 picks the sole healthy
provider, eastmoney. -/
theorem choose_staleImpls :
    choose_implementation staleImpls 0 (1 / 2) =
      some (⟨"eastmoney", true, some 400⟩, initRegistry 1) := by
  have hsc : scoreOf (initRegistry 1) = 1 := by
    simp [scoreOf, initRegistry]
  have hav : healthyImpls staleImpls =
      [(⟨"eastmoney", true, some 400⟩, initRegistry 1)] := rfl
  simp only [choose_implementation, hav, List.map_cons, List.map_nil,
    List.sum_cons, List.sum_nil, hsc, weightedScan]
  norm_num

/-- Distinct elements of `staleImpls` have distinct provider names. -/
theorem staleImpls_names :
    ∀ p ∈ staleImpls, ∀ q ∈ staleImpls, p.1.name = q.1.name → p = q := by
  intro p hp q hq hname
  simp only [staleImpls, List.mem_cons, List.not_mem_nil, or_false] at hp hq
  rcases hp with rfl | rfl <;> rcases hq with rfl | rfl <;>
    first
      | rfl
      | exact absurd hname (by decide)

/-- C6 counterexample: at time 400 the sina provider is unhealthy and
its last check (t=0) is 400 s old — the claim requires the routed call
to probe it — yet the call probes nobody (`probed = []`): selection
filters unhealthy providers out first, and the health gate only ever
runs on the selected, healthy provider. -/
theorem service_call_skips_unhealthy_probe :
    (serviceCall staleImpls 0 (1 / 2) 400 (some true) 0
        [(.ok () : Except CallErr Unit)]).probed = [] ∧
    needsCheck ⟨"sina", false, some 0⟩ 400 = true ∧
    (⟨"sina", false, some 0⟩ : DataSource).isHealthy = false ∧
    ((⟨"sina", false, some 0⟩, initRegistry 1) ∈ staleImpls) := by
  refine ⟨?_, by decide, by rfl, by simp [staleImpls]⟩
  simp only [serviceCall, choose_staleImpls]
  rfl

/-- C6 (amended): a routed call health-probes at most the provider it
selected, and only when that provider’s last check is stale; a provider
currently flagged unhealthy is excluded from selection, is never probed
by the call, and its stored state is left untouched — it stays excluded
until something else flips its flag. -/
theorem service_call_probe_scope {α : Type}
    (impls : List (DataSource × MethodRegistry)) (u : Nat) (r : ℚ)
    (now : Nat) (probe : Option Bool) (tid : Nat)
    (attempts : List (Except CallErr α))
    (hnames : ∀ p ∈ impls, ∀ q ∈ impls, p.1.name = q.1.name → p = q) :
    (∀ name ∈ (serviceCall impls u r now probe tid attempts).probed,
      ∃ src reg, choose_implementation impls u r = some (src, reg) ∧
        name = src.name ∧ src.isHealthy = true ∧ needsCheck src now = true) ∧
    (∀ p ∈ impls, p.1.isHealthy = false →
      p.1.name ∉ (serviceCall impls u r now probe tid attempts).probed ∧
      p ∈ (serviceCall impls u r now probe tid attempts).impls) := by
  cases hch : choose_implementation impls u r with
  | none =>
    constructor
    · intro name hn
      simp [serviceCall, hch] at hn
    · intro p hp _
      simp [serviceCall, hch]
      exact hp
  | some pr =>
    obtain ⟨src, reg⟩ := pr
    have hmem := choose_implementation_mem impls u r _ hch
    have hfil := List.mem_filter.mp hmem
    have hsrc : src.isHealthy = true := hfil.2
    have hprobe : (serviceCall impls u r now probe tid attempts).probed =
        if needsCheck src now then [src.name] else [] := by
      simp only [serviceCall, hch, hsrc, Bool.not_true, Bool.or_false]
      split
      · rfl
      · split <;> rfl
    have himpls : ∃ s2 r2,
        (serviceCall impls u r now probe tid attempts).impls =
          updateImpl impls src.name s2 r2 := by
      simp only [serviceCall, hch]
      split
      · exact ⟨_, _, rfl⟩
      · split
        · exact ⟨_, _, rfl⟩
        · exact ⟨_, _, rfl⟩
    constructor
    · intro name hn
      rw [hprobe] at hn
      by_cases hc : needsCheck src now
      · rw [if_pos hc] at hn
        simp only [List.mem_singleton] at hn
        exact ⟨src, reg, rfl, hn, hsrc, hc⟩
      · rw [if_neg hc] at hn
        cases hn
    · intro p hp hunh
      have hneq : p.1.name ≠ src.name := by
        intro he
        have := hnames p hp (src, reg) hfil.1 he
        rw [this] at hunh
        simp only at hunh
        rw [hsrc] at hunh
        cases hunh
      constructor
      · rw [hprobe]
        by_cases hc : needsCheck src now
        · rw [if_pos hc]
          simp only [List.mem_singleton]
          exact hneq
        · rw [if_neg hc]
          simp
      · obtain ⟨s2, r2, himp⟩ := himpls
        rw [himp]
        unfold updateImpl
        have : (if p.1.name = src.name then (s2, r2) else p) = p := if_neg hneq
        rw [← this]
        exact List.mem_map_of_mem _ hp

/-- Witness for `service_call_probe_scope`: over `staleImpls` at time
400, the unhealthy sina registration is neither probed nor modified by
a routed call. -/
theorem service_call_probe_scope_witness :
    ((⟨"sina", false, some 0⟩, initRegistry 1) ∈ staleImpls ∧
      ((⟨"sina", false, some 0⟩, initRegistry 1) :
          DataSource × MethodRegistry).1.isHealthy = false) ∧
    ("sina" ∉ (serviceCall staleImpls 0 (1 / 2) 400 (some true) 0
        [(.ok () : Except CallErr Unit)]).probed ∧
      (⟨"sina", false, some 0⟩, initRegistry 1) ∈
        (serviceCall staleImpls 0 (1 / 2) 400 (some true) 0
          [(.ok () : Except CallErr Unit)]).impls) :=
  ⟨⟨by simp [staleImpls], by rfl⟩,
    (service_call_probe_scope staleImpls 0 (1 / 2) 400 (some true) 0
        [(.ok () : Except CallErr Unit)] staleImpls_names).2
      (⟨"sina", false, some 0⟩, initRegistry 1) (by simp [staleImpls]) (by rfl)⟩

/-! ### Retry exhaustion (claim C7) -/

/-- When every attempt raises, the retry loop re-raises the last
exception (`reraise=True`). -/
theorem retryResult_all_error {α : Type} :
    ∀ (l : List (Except CallErr α)), l ≠ [] →
      (∀ a ∈ l, ∃ e, a = Except.error e) →
      retryResult l = Except.error (lastErrD l)
  | [], h, _ => absurd rfl h
  | [a], _, hall => by
    obtain ⟨e, rfl⟩ := hall a (by simp)
    rfl
  | a :: b :: rest, _, hall => by
    obtain ⟨e, rfl⟩ := hall a (by simp)
    have ih := retryResult_all_error (b :: rest) (by simp)
      (fun x hx => hall x (List.mem_cons_of_mem _ hx))
    calc retryResult (Except.error e :: b :: rest)
        = retryResult (b :: rest) := rfl
      _ = Except.error (lastErrD (b :: rest)) := ih
      _ = Except.error (lastErrD (Except.error e :: b :: rest)) := rfl

/-- C7: on a routed call whose provider invocation raises on every
attempt, the final exception is re-raised; exactly one failure outcome
is recorded (`record_error` once: error and call counters +1, one EMA
step `s ← (1−α)·s` — the intermediate attempts touch nothing); and the
selected provider ends flagged unhealthy with `last_check_time = now`. -/
theorem service_call_failure_path {α : Type}
    (impls : List (DataSource × MethodRegistry)) (u : Nat) (r : ℚ)
    (now : Nat) (probe : Option Bool) (tid : Nat)
    (attempts : List (Except CallErr α)) (src : DataSource)
    (reg : MethodRegistry)
    (hch : choose_implementation impls u r = some (src, reg))
    (hgate : (managerIsHealthy src now probe).2 = true)
    (hne : attempts ≠ [])
    (hall : ∀ a ∈ attempts, ∃ e, a = Except.error e) :
    (serviceCall impls u r now probe tid attempts).result =
      .error (lastErrD attempts) ∧
    ∃ src2 reg2,
      (serviceCall impls u r now probe tid attempts).chosenAfter =
        some (src2, reg2) ∧
      src2.isHealthy = false ∧ src2.lastCheckTime = some now ∧
      reg2.errorCount = reg.errorCount + 1 ∧
      reg2.callCount = reg.callCount + 1 ∧
      reg2.successRate = (1 - emaAlpha) * reg.successRate ∧
      reg2.lastCallTime = some now ∧
      reg2.activeTasks = (insert tid reg.activeTasks).erase tid ∧
      reg2.weight = reg.weight := by
  have hret := retryResult_all_error attempts hne hall
  have hcond : ¬ ((managerIsHealthy src now probe).2 = false) := by
    rw [hgate]
    simp
  constructor
  · simp only [serviceCall, hch, hret]
    rw [if_neg hcond]
  · have hchosen : (serviceCall impls u r now probe tid attempts).chosenAfter =
        some ({ (managerIsHealthy src now probe).1 with
            isHealthy := false
            lastCheckTime := some now },
          { record_error { reg with
                activeTasks := insert tid reg.activeTasks } now with
            activeTasks := (insert tid reg.activeTasks).erase tid }) := by
      simp only [serviceCall, hch, hret]
      rw [if_neg hcond]
      rfl
    refine ⟨_, _, hchosen, rfl, rfl, rfl, rfl, ?_, rfl, rfl, rfl⟩
    simp only [record_error, emaAlpha]
    ring

/-- Witness for `service_call_failure_path`: routing over `staleImpls`
with two failing attempts re-raises the second error and applies exactly
one EMA step to the eastmoney registration. -/
theorem service_call_failure_path_witness :
    (serviceCall staleImpls 0 (1 / 2) 400 (some true) 5
        [(.error (.upstream 1) : Except CallErr Unit),
          .error (.upstream 2)]).result =
      .error (lastErrD [(.error (.upstream 1) : Except CallErr Unit),
        .error (.upstream 2)]) ∧
    ∃ src2 reg2,
      (serviceCall staleImpls 0 (1 / 2) 400 (some true) 5
          [(.error (.upstream 1) : Except CallErr Unit),
            .error (.upstream 2)]).chosenAfter = some (src2, reg2) ∧
      src2.isHealthy = false ∧ src2.lastCheckTime = some 400 ∧
      reg2.errorCount = (initRegistry 1).errorCount + 1 ∧
      reg2.callCount = (initRegistry 1).callCount + 1 ∧
      reg2.successRate = (1 - emaAlpha) * (initRegistry 1).successRate ∧
      reg2.lastCallTime = some 400 ∧
      reg2.activeTasks = (insert 5 (initRegistry 1).activeTasks).erase 5 ∧
      reg2.weight = (initRegistry 1).weight :=
  service_call_failure_path staleImpls 0 (1 / 2) 400 (some true) 5
    [(.error (.upstream 1) : Except CallErr Unit), .error (.upstream 2)]
    ⟨"eastmoney", true, some 400⟩ (initRegistry 1) choose_staleImpls (by rfl)
    (by simp)
    (fun a ha => by
      rcases List.mem_cons.mp ha with rfl | ha2
      · exact ⟨.upstream 1, rfl⟩
      · rcases List.mem_cons.mp ha2 with rfl | h3
        · exact ⟨.upstream 2, rfl⟩
        · cases h3)

/-! ### Registry counters invariant (claim C8) -/

/-- The events the router applies to a `MethodRegistry` over its life:
outcome recordings (manager.py lines 54-71) and active-task
acquire/release (lines 174, 202). -/
inductive RegEvent where
  | success (now : Nat)
  | failure (now : Nat)
  | acquire (tid : Nat)
  | release (tid : Nat)

/-- Apply one event to the registration state. -/
def applyEvent (r : MethodRegistry) : RegEvent → MethodRegistry
  | .success now => record_success r now
  | .failure now => record_error r now
  | .acquire tid => { r with activeTasks := insert tid r.activeTasks }
  | .release tid => { r with activeTasks := r.activeTasks.erase tid }

/-- Apply a sequence of events. -/
def applyEvents (r : MethodRegistry) (es : List RegEvent) : MethodRegistry :=
  es.foldl applyEvent r

/-- One event keeps the success rate inside `[0, 1]`. -/
theorem applyEvent_rate_bounds (r : MethodRegistry) (e : RegEvent)
    (h0 : 0 ≤ r.successRate) (h1 : r.successRate ≤ 1) :
    0 ≤ (applyEvent r e).successRate ∧ (applyEvent r e).successRate ≤ 1 := by
  cases e with
  | success now =>
    simp only [applyEvent, record_success, emaAlpha]
    constructor <;> nlinarith
  | failure now =>
    simp only [applyEvent, record_error, emaAlpha]
    constructor <;> nlinarith
  | acquire tid => exact ⟨h0, h1⟩
  | release tid => exact ⟨h0, h1⟩

/-- C8: starting from a fresh registration (`success_rate = 1.0`), after
any finite sequence of success/failure outcomes (EMA step
`s ← (1−0.2)·s + 0.2·o`, `o ∈ {0,1}`) and task acquisitions/releases,
the success rate stays within `[0, 1]` and the active-task count (the
size of the `active_tasks` set) is never negative. -/
theorem registry_invariant (w : ℚ) (es : List RegEvent) :
    0 ≤ (applyEvents (initRegistry w) es).successRate ∧
    (applyEvents (initRegistry w) es).successRate ≤ 1 ∧
    0 ≤ (((applyEvents (initRegistry w) es).activeTasks.card : ℤ)) := by
  have key : ∀ (l : List RegEvent) (r : MethodRegistry),
      0 ≤ r.successRate → r.successRate ≤ 1 →
      0 ≤ (applyEvents r l).successRate ∧ (applyEvents r l).successRate ≤ 1 := by
    intro l
    induction l with
    | nil => intro r h0 h1; exact ⟨h0, h1⟩
    | cons e rest ih =>
      intro r h0 h1
      have hstep := applyEvent_rate_bounds r e h0 h1
      exact ih (applyEvent r e) hstep.1 hstep.2
  have hinit0 : (0 : ℚ) ≤ (initRegistry w).successRate := by
    simp [initRegistry]
  have hinit1 : (initRegistry w).successRate ≤ 1 := by
    simp [initRegistry]
  obtain ⟨hl, hu⟩ := key es (initRegistry w) hinit0 hinit1
  exact ⟨hl, hu, Int.natCast_nonneg _⟩

/-! ### `stat()` leaves provider state untouched (claim C10) -/

/-- The registered sources used by the C10 scenario: sina stored as
unhealthy, eastmoney stored as healthy. -/
def staleSources : List DataSource :=
  [⟨"sina", false, some 0⟩, ⟨"eastmoney", true, some 400⟩]

/-- C10: `stat()` reports, per source, a fresh `health_check()` result
next to the stored `last_check_time` but leaves the stored sources —
in particular `is_healthy` and `last_check_time` — unchanged; since
routing selection filters only on the stored flag, a provider stored as
unhealthy stays excluded from selection no matter what `stat()`'s fresh
probes report. -/
theorem stat_frame (sources : List DataSource) (probe : String → Bool) :
    (statModel sources probe).2 = sources ∧
    (statModel sources probe).1 =
      sources.map (fun s => (s.name, probe s.name, s.lastCheckTime)) ∧
    (∀ (impls : List (DataSource × MethodRegistry)) (u : Nat) (r : ℚ)
        (src : DataSource) (reg : MethodRegistry),
      choose_implementation impls u r = some (src, reg) →
      src.isHealthy = true) := by
  refine ⟨rfl, rfl, ?_⟩
  intro impls u r src reg hch
  exact (List.mem_filter.mp (choose_implementation_mem impls u r _ hch)).2

/-- Witness for `stat_frame`: over `staleSources` with a probe that
reports every source healthy, the stored states survive `stat()`
unchanged (sina still flagged unhealthy) while routing selects only a
stored-healthy provider. -/
theorem stat_frame_witness :
    (statModel staleSources (fun _ => true)).2 = staleSources ∧
    (statModel staleSources (fun _ => true)).1 =
      [("sina", true, some 0), ("eastmoney", true, some 400)] ∧
    (⟨"eastmoney", true, some 400⟩ : DataSource).isHealthy = true :=
  ⟨(stat_frame staleSources (fun _ => true)).1, by rfl,
    (stat_frame staleSources (fun _ => true)).2.2 staleImpls 0 (1 / 2) _ _
      choose_staleImpls⟩

end TradingLab
